/-
Verification of the register-access layer of the sfc NIC driver
(src/driver/linux_net/nic.c): register catalogue and diagnostic dump,
statistics codec, interrupt binding and PCIe link audit.

Machine integers are modelled as Nat, with explicit `% 2^64` where u64
overflow can matter.  Hardware reads performed by the dump extractor are
recorded as an event trace; bytes written into the output buffer are
counted rather than materialised.
-/
import Mathlib

set_option linter.unusedVariables false
set_option maxRecDepth 4000

namespace Sfc

/-! ### Register catalogue data model (struct efx_nic_reg / efx_nic_reg_table) -/

/-- `struct efx_nic_reg`: one fixed 16-byte register, valid on the closed
revision interval `[min_revision, max_revision]`. -/
structure efx_nic_reg where
  offset : Nat
  min_revision : Nat
  max_revision : Nat
deriving Repr, DecidableEq

/-- `struct efx_nic_reg_table`: a repeating structure of `rows` elements of
physical width `step` bytes, valid on `[min_revision, max_revision]`. -/
structure efx_nic_reg_table where
  offset : Nat
  min_revision : Nat
  max_revision : Nat
  step : Nat
  rows : Nat
deriving Repr, DecidableEq

/-- The closed-interval applicability test
`efx->type->revision >= min_revision && efx->type->revision <= max_revision`
used by both `efx_nic_get_regs_len` and `efx_nic_get_regs`. -/
def regApplicable (revision : Nat) (r : efx_nic_reg) : Bool :=
  decide (r.min_revision ≤ revision) && decide (revision ≤ r.max_revision)

/-- The identical applicability test for table descriptors. -/
def tableApplicable (revision : Nat) (t : efx_nic_reg_table) : Bool :=
  decide (t.min_revision ≤ revision) && decide (revision ≤ t.max_revision)

/-- `sizeof(efx_oword_t)`: 16 bytes, the fixed flat-register dump width. -/
def owordBytes : Nat := 16

/-- `efx_nic_get_regs_len`: 16 bytes per applicable flat register plus
`rows * min(step, 16)` bytes per applicable table. -/
def efx_nic_get_regs_len (revision : Nat) (regs : List efx_nic_reg)
    (tables : List efx_nic_reg_table) : Nat :=
  (regs.foldl
    (fun len r => if regApplicable revision r then len + owordBytes else len) 0)
  +
  (tables.foldl
    (fun len t =>
      if tableApplicable revision t then len + t.rows * min t.step 16 else len) 0)

/-- One hardware read performed by `efx_nic_get_regs`:
a 32-bit read (`efx_readd`), a 64-bit SRAM read (`efx_sram_readq`),
a 128-bit register read (`efx_reado`), or a 128-bit indexed table read
(`efx_reado_table`). -/
inductive ReadEvent where
  | readd (addr : Nat)
  | sram_readq (base : Nat) (index : Nat)
  | reado (offset : Nat)
  | reado_table (offset : Nat) (index : Nat)
deriving Repr, DecidableEq

/-- Result of running the dump extractor: the reads performed in order, the
number of bytes advanced in the output buffer, and whether the dump was
aborted by the `default: WARN_ON(1); return;` arm. -/
structure DumpResult where
  events : List ReadEvent
  bytes : Nat
  aborted : Bool
deriving Repr, DecidableEq

/-- The read performed by the `switch (table->step)` for row `i`:
step 4 reads 32 bits at `offset + 4*i`, step 8 is a 64-bit SRAM read at
index `i`, step 16 a 128-bit table read at index `i`, step 32 a 128-bit
table read at the doubled index `2*i`; any other step hits the
`default: WARN_ON(1); return;` arm (`none`). -/
def rowRead (t : efx_nic_reg_table) (i : Nat) : Option ReadEvent :=
  match t.step with
  | 4 => some (ReadEvent.readd (t.offset + 4 * i))
  | 8 => some (ReadEvent.sram_readq t.offset i)
  | 16 => some (ReadEvent.reado_table t.offset i)
  | 32 => some (ReadEvent.reado_table t.offset (2 * i))
  | _ => none

/-- The per-table row loop `for (i = 0; i < table->rows; i++)`, started at
row `i`; each completed row advances the buffer by `size = min(step, 16)`
bytes; an unsupported step aborts the whole dump. -/
def dumpRowsFrom (t : efx_nic_reg_table) (i : Nat) : DumpResult :=
  if h : i < t.rows then
    match rowRead t i with
    | some e =>
        let rest := dumpRowsFrom t (i + 1)
        ⟨e :: rest.events, min t.step 16 + rest.bytes, rest.aborted⟩
    | none => ⟨[], 0, true⟩
  else ⟨[], 0, false⟩
termination_by t.rows - i

/-- The table-descriptor loop of `efx_nic_get_regs`: skip inapplicable
tables, dump each applicable one row by row, and stop the whole function
on an abort. -/
def dumpTables (revision : Nat) : List efx_nic_reg_table → DumpResult
  | [] => ⟨[], 0, false⟩
  | t :: ts =>
      if tableApplicable revision t then
        let d := dumpRowsFrom t 0
        if d.aborted then ⟨d.events, d.bytes, true⟩
        else
          let rest := dumpTables revision ts
          ⟨d.events ++ rest.events, d.bytes + rest.bytes, rest.aborted⟩
      else dumpTables revision ts

/-- `efx_nic_get_regs`: every applicable flat register is read with one
128-bit `efx_reado` and advances the buffer 16 bytes; then the tables are
dumped in catalogue order. -/
def efx_nic_get_regs (revision : Nat) (regs : List efx_nic_reg)
    (tables : List efx_nic_reg_table) : DumpResult :=
  let flat := regs.filter (regApplicable revision)
  let tl := dumpTables revision tables
  ⟨flat.map (fun r => ReadEvent.reado r.offset) ++ tl.events,
   flat.length * owordBytes + tl.bytes, tl.aborted⟩

/-! ### Statistics codec (efx_nic_describe_stats / efx_nic_update_stats) -/

/-- The u64 modulus. -/
def WORD64 : Nat := 2 ^ 64

/-- Wrapping u64 addition. -/
def add64 (a b : Nat) : Nat := (a + b) % WORD64

/-- Wrapping u64 subtraction `a - b`. -/
def sub64 (a b : Nat) : Nat := (a + (WORD64 - b % WORD64)) % WORD64

/-- `ETH_GSTRING_LEN`: the fixed stride of the ethtool name buffer. -/
def ETH_GSTRING_LEN : Nat := 32

/-- `struct efx_hw_stat_desc`: `name` is a C string pointer (`none` models
NULL), `dma_width` a bit width, `offset` a byte offset into the DMA
snapshot. -/
structure efx_hw_stat_desc where
  name : Option String
  dma_width : Nat
  offset : Nat
deriving Repr, DecidableEq

/-- Out-of-range descriptor placeholder (callers guarantee
`count <= ARRAY_SIZE(desc)`; width 0 makes an out-of-range access inert). -/
def nullStatDesc : efx_hw_stat_desc := ⟨none, 0, 0⟩

/-- `desc[index]`. -/
def descGet (desc : List efx_hw_stat_desc) (index : Nat) : efx_hw_stat_desc :=
  desc.getD index nullStatDesc

/-- The kernel `for_each_set_bit(index, mask, count)` iteration order: the
set bits of `mask` below `count`, ascending. -/
def for_each_set_bit (mask : Nat → Bool) (count : Nat) : List Nat :=
  (List.range count).filter mask

/-- Little-endian decode of `nbytes` bytes of the DMA snapshot starting at
byte `off` (`le16_to_cpup` / `le32_to_cpup` / `le64_to_cpup`). -/
def le_decode (dma_buf : Nat → Nat) (off nbytes : Nat) : Nat :=
  (List.range nbytes).foldr (fun k acc => acc * 256 + dma_buf (off + k) % 256) 0

/-- One iteration of the `efx_nic_update_stats` loop body: skip when
`dma_width == 0`; decode 16/32/64-bit little-endian values; any other
width hits `WARN_ON(1); val = 0;` (recorded in the Bool flag) and the
substitute 0 is still stored or accumulated. -/
def updateStep (desc : List efx_hw_stat_desc) (dma_buf : Nat → Nat)
    (accumulate : Bool) (acc : List Nat × Bool) (index : Nat) :
    List Nat × Bool :=
  let d := descGet desc index
  if d.dma_width ≠ 0 then
    let vw : Nat × Bool :=
      if d.dma_width = 16 then (le_decode dma_buf d.offset 2, acc.2)
      else if d.dma_width = 32 then (le_decode dma_buf d.offset 4, acc.2)
      else if d.dma_width = 64 then (le_decode dma_buf d.offset 8, acc.2)
      else (0, true)
    let stats := if accumulate then acc.1.set index (add64 (acc.1.getD index 0) vw.1)
                 else acc.1.set index vw.1
    (stats, vw.2)
  else acc

/-- `efx_nic_update_stats`: decode the DMA snapshot into `stats` over the
enabled indices; returns the updated stats array and whether any
`WARN_ON(1)` (unsupported width) fired. -/
def efx_nic_update_stats (desc : List efx_hw_stat_desc) (count : Nat)
    (mask : Nat → Bool) (stats : List Nat) (dma_buf : Nat → Nat)
    (accumulate : Bool) : List Nat × Bool :=
  (for_each_set_bit mask count).foldl (updateStep desc dma_buf accumulate)
    (stats, false)

/-- `strlcpy(names, name, ETH_GSTRING_LEN)`: copies at most
`ETH_GSTRING_LEN - 1` characters and NUL-terminates, truncating longer
names. -/
def strlcpyName (n : String) : String := n.take (ETH_GSTRING_LEN - 1)

/-- `efx_nic_describe_stats`: returns the number of visible (enabled and
named) statistics and the list of name slots written, in iteration
order. -/
def efx_nic_describe_stats (desc : List efx_hw_stat_desc) (count : Nat)
    (mask : Nat → Bool) : Nat × List String :=
  (for_each_set_bit mask count).foldl
    (fun acc index =>
      match (descGet desc index).name with
      | some n => (acc.1 + 1, acc.2 ++ [strlcpyName n])
      | none => acc)
    (0, [])

/-! ### No-descriptor-drop correction (efx_nic_fix_nodesc_drop_stat) -/

/-- The per-device persisted fields `rx_nodesc_drops_total`,
`rx_nodesc_drops_while_down` (u64) and `rx_nodesc_drops_prev_state`. -/
structure NodescState where
  rx_nodesc_drops_total : Nat
  rx_nodesc_drops_while_down : Nat
  rx_nodesc_drops_prev_state : Bool
deriving Repr, DecidableEq

/-- `efx_nic_fix_nodesc_drop_stat`: `up` is `efx->net_dev->flags & IFF_UP`;
`rx_nodesc_drops` the raw counter passed by pointer.  Returns the updated
device state and the corrected value written back through the pointer.
All u64 arithmetic wraps mod `2^64`. -/
def efx_nic_fix_nodesc_drop_stat (up : Bool) (st : NodescState)
    (rx_nodesc_drops : Nat) : NodescState × Nat :=
  let wd :=
    if !up || !st.rx_nodesc_drops_prev_state then
      add64 st.rx_nodesc_drops_while_down
        (sub64 rx_nodesc_drops st.rx_nodesc_drops_total)
    else st.rx_nodesc_drops_while_down
  (⟨rx_nodesc_drops, wd, up⟩, sub64 rx_nodesc_drops wd)

/-- Serial refresh cycles: run `efx_nic_fix_nodesc_drop_stat` over a
chronological list of (raw counter, link-up) observations, collecting the
corrected values reported to the caller. -/
def runNodesc : NodescState → List (Nat × Bool) → List Nat
  | _, [] => []
  | st, (raw, up) :: rest =>
      let r := efx_nic_fix_nodesc_drop_stat up st raw
      r.2 :: runNodesc r.1 rest

/-! ### Interrupt binding (efx_nic_init_interrupt) -/

/-- A channel: its index (`channel->channel`) and its interrupt vector
(`channel->irq`). -/
structure IrqChannel where
  channel : Nat
  irq : Nat
deriving Repr, DecidableEq

/-- Observable actions of interrupt initialisation: hooking and releasing
vectors (`request_irq` / `free_irq`) and allocating / releasing the
receive-steering CPU-affinity map (`alloc_irq_cpu_rmap` /
`free_irq_cpu_rmap`). -/
inductive IrqEvent where
  | bindIrq (irq : Nat)
  | freeIrq (irq : Nat)
  | allocRmap
  | freeRmap
deriving Repr, DecidableEq

/-- Inputs of `efx_nic_init_interrupt`: the interrupt mode
(`EFX_INT_MODE_USE_MSI`, `== EFX_INT_MODE_MSIX`), the channel list, and the
outcomes of the kernel services (0 = success, nonzero = -errno). -/
structure IrqConfig where
  use_msi : Bool
  msix : Bool
  n_rx_channels : Nat
  legacy_irq : Nat
  channels : List IrqChannel
  request_irq : Nat → Int
  rmap_add : Nat → Int
  alloc_rmap_ok : Bool

def ENOMEM : Int := 12

/-- The `efx_for_each_channel` hook loop: returns the irqs successfully
bound (in channel order; this is the value of `n_irqs` as a list) and the
final `rc` (0 when every channel was hooked and steered). A channel whose
`irq_cpu_rmap_add` fails has already been bound, so its irq is included. -/
def bindLoop (cfg : IrqConfig) : List IrqChannel → List Nat × Int
  | [] => ([], 0)
  | ch :: rest =>
      let rc := cfg.request_irq ch.irq
      if rc ≠ 0 then ([], rc)
      else
        if cfg.msix ∧ ch.channel < cfg.n_rx_channels then
          let rc2 := cfg.rmap_add ch.irq
          if rc2 ≠ 0 then ([ch.irq], rc2)
          else
            let r := bindLoop cfg rest
            (ch.irq :: r.1, r.2)
        else
          let r := bindLoop cfg rest
          (ch.irq :: r.1, r.2)

/-- `efx_nic_init_interrupt` as its event trace plus return code.  Legacy
mode hooks the single shared vector.  Message-signaled mode allocates the
affinity map (MSI-X only), hooks each channel, and on failure releases the
map and then walks the channel list from the start, releasing the first
`n_irqs` bound vectors (`if (n_irqs-- == 0) break;`). -/
def efx_nic_init_interrupt (cfg : IrqConfig) : List IrqEvent × Int :=
  if cfg.use_msi = false then
    let rc := cfg.request_irq cfg.legacy_irq
    if rc ≠ 0 then ([], rc) else ([IrqEvent.bindIrq cfg.legacy_irq], 0)
  else if cfg.msix ∧ cfg.alloc_rmap_ok = false then ([], -ENOMEM)
  else
    let pre : List IrqEvent := if cfg.msix then [IrqEvent.allocRmap] else []
    let r := bindLoop cfg cfg.channels
    if r.2 ≠ 0 then
      (pre ++ r.1.map IrqEvent.bindIrq
        ++ (if cfg.msix then [IrqEvent.freeRmap] else [])
        ++ (cfg.channels.take r.1.length).map (fun ch => IrqEvent.freeIrq ch.irq),
       r.2)
    else (pre ++ r.1.map IrqEvent.bindIrq, 0)

/-! ### PCIe link audit (efx_nic_check_pcie_link) -/

/-- `PCI_EXP_LNKSTA_NLW`: negotiated link width field, bits 9:4. -/
def PCI_EXP_LNKSTA_NLW : Nat := 0x3f0

/-- `PCI_EXP_LNKSTA_CLS`: current link speed field, bits 3:0. -/
def PCI_EXP_LNKSTA_CLS : Nat := 0x000f

/-- Outcome of `efx_nic_check_pcie_link`: the returned negotiated width and
whether each of the two `netif_warn` diagnostics fired. -/
structure PcieAudit where
  returned : Nat
  hard_shortfall : Bool
  soft_shortfall : Bool
deriving Repr, DecidableEq

/-- `efx_nic_check_pcie_link`: `stat = none` models an absent PCIe
capability or an unreadable link-status word (the function returns 0 with
no warning); otherwise width and speed are extracted from the status word
and `bandwidth = width << (speed - 1)` is compared against the minimum and
optimal requirements. -/
def efx_nic_check_pcie_link (stat : Option Nat)
    (full_width full_speed min_bandwidth : Nat) : PcieAudit :=
  match stat with
  | none => ⟨0, false, false⟩
  | some s =>
      let width := (s &&& PCI_EXP_LNKSTA_NLW) >>> 4
      let speed := s &&& PCI_EXP_LNKSTA_CLS
      let bandwidth := width <<< (speed - 1)
      let full_bandwidth := full_width <<< (full_speed - 1)
      ⟨width, decide (bandwidth < min_bandwidth),
        decide (bandwidth < full_bandwidth)⟩

/-! ### The static catalogues (efx_nic_regs / efx_nic_reg_tables)

The numeric values of the `FR_*` / `ER_*` offsets, steps and row counts
come from `farch_regs.h` / `ef10_regs.h`; the catalogues are therefore
parametric in them, while the revision ranges — fixed by the
`REGISTER_REVISION_*` constants and the `REGISTER_*` / `REGISTER_TABLE_*`
generator patterns in nic.c — are concrete. -/

/-- `REGISTER_REVISION_FA = 1`, `FB = 2`, `FC = FZ = 3`, `ED = EZ = 4`. -/
def REGISTER_AA (offset : Nat) : efx_nic_reg := ⟨offset, 1, 1⟩

def REGISTER_AB (offset : Nat) : efx_nic_reg := ⟨offset, 1, 2⟩

def REGISTER_AZ (offset : Nat) : efx_nic_reg := ⟨offset, 1, 3⟩

def REGISTER_BB (offset : Nat) : efx_nic_reg := ⟨offset, 2, 2⟩

def REGISTER_BZ (offset : Nat) : efx_nic_reg := ⟨offset, 2, 3⟩

def REGISTER_CZ (offset : Nat) : efx_nic_reg := ⟨offset, 3, 3⟩

def REGISTER_DZ (offset : Nat) : efx_nic_reg := ⟨offset, 4, 4⟩

def efx_nic_regs (off : Nat → Nat) : List efx_nic_reg :=
  [
    REGISTER_AZ (off 0),  -- ADR_REGION
    REGISTER_AZ (off 1),  -- INT_EN_KER
    REGISTER_BZ (off 2),  -- INT_EN_CHAR
    REGISTER_AZ (off 3),  -- INT_ADR_KER
    REGISTER_BZ (off 4),  -- INT_ADR_CHAR
    REGISTER_AZ (off 5),  -- HW_INIT
    REGISTER_CZ (off 6),  -- USR_EV_CFG
    REGISTER_AB (off 7),  -- EE_SPI_HCMD
    REGISTER_AB (off 8),  -- EE_SPI_HADR
    REGISTER_AB (off 9),  -- EE_SPI_HDATA
    REGISTER_AB (off 10),  -- EE_BASE_PAGE
    REGISTER_AB (off 11),  -- EE_VPD_CFG0
    REGISTER_AB (off 12),  -- NIC_STAT
    REGISTER_AB (off 13),  -- GPIO_CTL
    REGISTER_AB (off 14),  -- GLB_CTL
    REGISTER_BZ (off 15),  -- DP_CTRL
    REGISTER_AZ (off 16),  -- MEM_STAT
    REGISTER_AZ (off 17),  -- CS_DEBUG
    REGISTER_AZ (off 18),  -- ALTERA_BUILD
    REGISTER_AZ (off 19),  -- CSR_SPARE
    REGISTER_AB (off 20),  -- PCIE_SD_CTL0123
    REGISTER_AB (off 21),  -- PCIE_SD_CTL45
    REGISTER_AB (off 22),  -- PCIE_PCS_CTL_STAT
    REGISTER_AZ (off 23),  -- EVQ_CTL
    REGISTER_AZ (off 24),  -- EVQ_CNT1
    REGISTER_AZ (off 25),  -- EVQ_CNT2
    REGISTER_AZ (off 26),  -- BUF_TBL_CFG
    REGISTER_AZ (off 27),  -- SRM_RX_DC_CFG
    REGISTER_AZ (off 28),  -- SRM_TX_DC_CFG
    REGISTER_AZ (off 29),  -- SRM_CFG
    REGISTER_AZ (off 30),  -- SRM_UPD_EVQ
    REGISTER_AZ (off 31),  -- SRAM_PARITY
    REGISTER_AZ (off 32),  -- RX_CFG
    REGISTER_BZ (off 33),  -- RX_FILTER_CTL
    REGISTER_AZ (off 34),  -- RX_DC_CFG
    REGISTER_AZ (off 35),  -- RX_DC_PF_WM
    REGISTER_BZ (off 36),  -- RX_RSS_TKEY
    REGISTER_AA (off 37),  -- RX_SELF_RST
    REGISTER_CZ (off 38),  -- RX_RSS_IPV6_REG1
    REGISTER_CZ (off 39),  -- RX_RSS_IPV6_REG2
    REGISTER_CZ (off 40),  -- RX_RSS_IPV6_REG3
    REGISTER_AZ (off 41),  -- TX_DC_CFG
    REGISTER_AA (off 42),  -- TX_CHKSM_CFG
    REGISTER_AZ (off 43),  -- TX_CFG
    REGISTER_AZ (off 44),  -- TX_RESERVED
    REGISTER_BZ (off 45),  -- TX_PACE
    REGISTER_BB (off 46),  -- TX_VLAN
    REGISTER_BZ (off 47),  -- TX_IPFIL_PORTEN
    REGISTER_AB (off 48),  -- MD_TXD
    REGISTER_AB (off 49),  -- MD_RXD
    REGISTER_AB (off 50),  -- MD_CS
    REGISTER_AB (off 51),  -- MD_PHY_ADR
    REGISTER_AB (off 52),  -- MD_ID
    REGISTER_AB (off 53),  -- MAC_STAT_DMA
    REGISTER_AB (off 54),  -- MAC_CTRL
    REGISTER_BB (off 55),  -- GEN_MODE
    REGISTER_AB (off 56),  -- MAC_MC_HASH_REG0
    REGISTER_AB (off 57),  -- MAC_MC_HASH_REG1
    REGISTER_AB (off 58),  -- GM_CFG1
    REGISTER_AB (off 59),  -- GM_CFG2
    REGISTER_AB (off 60),  -- GM_MAX_FLEN
    REGISTER_AB (off 61),  -- GM_ADR1
    REGISTER_AB (off 62),  -- GM_ADR2
    REGISTER_AB (off 63),  -- GMF_CFG0
    REGISTER_AB (off 64),  -- GMF_CFG1
    REGISTER_AB (off 65),  -- GMF_CFG2
    REGISTER_AB (off 66),  -- GMF_CFG3
    REGISTER_AB (off 67),  -- GMF_CFG4
    REGISTER_AB (off 68),  -- GMF_CFG5
    REGISTER_BB (off 69),  -- TX_SRC_MAC_CTL
    REGISTER_AB (off 70),  -- XM_ADR_LO
    REGISTER_AB (off 71),  -- XM_ADR_HI
    REGISTER_AB (off 72),  -- XM_GLB_CFG
    REGISTER_AB (off 73),  -- XM_TX_CFG
    REGISTER_AB (off 74),  -- XM_RX_CFG
    REGISTER_AB (off 75),  -- XM_MGT_INT_MASK
    REGISTER_AB (off 76),  -- XM_FC
    REGISTER_AB (off 77),  -- XM_PAUSE_TIME
    REGISTER_AB (off 78),  -- XM_TX_PARAM
    REGISTER_AB (off 79),  -- XM_RX_PARAM
    REGISTER_AB (off 80),  -- XX_PWR_RST
    REGISTER_AB (off 81),  -- XX_SD_CTL
    REGISTER_AB (off 82),  -- XX_TXDRV_CTL
    REGISTER_DZ (off 83),  -- BIU_HW_REV_ID
    REGISTER_DZ (off 84),  -- MC_DB_LWRD
    REGISTER_DZ (off 85)  -- MC_DB_HWRD
  ]

/-- The header constants (offsets, steps, row counts) consumed by the
table catalogue; one field per distinct `FR_*`/`ER_*` identifier. -/
structure TableConsts where
  FR_BB_TX_IPFIL_TBL : Nat
  FR_BB_TX_IPFIL_TBL_STEP : Nat
  FR_BB_TX_IPFIL_TBL_ROWS : Nat
  FR_BB_TX_SRC_MAC_TBL : Nat
  FR_BB_TX_SRC_MAC_TBL_STEP : Nat
  FR_BB_TX_SRC_MAC_TBL_ROWS : Nat
  FR_AA_RX_DESC_PTR_TBL_KER : Nat
  FR_AA_RX_DESC_PTR_TBL_KER_STEP : Nat
  FR_AA_RX_DESC_PTR_TBL_KER_ROWS : Nat
  FR_BZ_RX_DESC_PTR_TBL : Nat
  FR_BZ_RX_DESC_PTR_TBL_STEP : Nat
  FR_BB_RX_DESC_PTR_TBL_ROWS : Nat
  FR_CZ_RX_DESC_PTR_TBL_ROWS : Nat
  FR_AA_TX_DESC_PTR_TBL_KER : Nat
  FR_AA_TX_DESC_PTR_TBL_KER_STEP : Nat
  FR_AA_TX_DESC_PTR_TBL_KER_ROWS : Nat
  FR_BZ_TX_DESC_PTR_TBL : Nat
  FR_BZ_TX_DESC_PTR_TBL_STEP : Nat
  FR_BB_TX_DESC_PTR_TBL_ROWS : Nat
  FR_CZ_TX_DESC_PTR_TBL_ROWS : Nat
  FR_AA_EVQ_PTR_TBL_KER : Nat
  FR_AA_EVQ_PTR_TBL_KER_STEP : Nat
  FR_AA_EVQ_PTR_TBL_KER_ROWS : Nat
  FR_BZ_EVQ_PTR_TBL : Nat
  FR_BZ_EVQ_PTR_TBL_STEP : Nat
  FR_BB_EVQ_PTR_TBL_ROWS : Nat
  FR_CZ_EVQ_PTR_TBL_ROWS : Nat
  FR_AA_BUF_FULL_TBL_KER : Nat
  FR_BZ_BUF_FULL_TBL : Nat
  FR_CZ_RX_MAC_FILTER_TBL0 : Nat
  FR_CZ_RX_MAC_FILTER_TBL0_STEP : Nat
  FR_CZ_RX_MAC_FILTER_TBL0_ROWS : Nat
  FR_BZ_TIMER_TBL : Nat
  FR_BZ_TIMER_TBL_STEP : Nat
  FR_BB_TIMER_TBL_ROWS : Nat
  FR_CZ_TIMER_TBL_ROWS : Nat
  FR_BZ_TX_PACE_TBL : Nat
  FR_BZ_TX_PACE_TBL_STEP : Nat
  FR_BB_TX_PACE_TBL_ROWS : Nat
  FR_CZ_TX_PACE_TBL_ROWS : Nat
  FR_BZ_RX_INDIRECTION_TBL : Nat
  FR_BZ_RX_INDIRECTION_TBL_STEP : Nat
  FR_BZ_RX_INDIRECTION_TBL_ROWS : Nat
  FR_CZ_TX_MAC_FILTER_TBL0 : Nat
  FR_CZ_TX_MAC_FILTER_TBL0_STEP : Nat
  FR_CZ_TX_MAC_FILTER_TBL0_ROWS : Nat
  FR_CZ_MC_TREG_SMEM : Nat
  FR_CZ_MC_TREG_SMEM_STEP : Nat
  FR_CZ_MC_TREG_SMEM_ROWS : Nat
  FR_BZ_RX_FILTER_TBL0 : Nat
  FR_BZ_RX_FILTER_TBL0_STEP : Nat
  FR_BZ_RX_FILTER_TBL0_ROWS : Nat
  ER_DZ_BIU_MC_SFT_STATUS : Nat
  ER_DZ_BIU_MC_SFT_STATUS_STEP : Nat
  ER_DZ_BIU_MC_SFT_STATUS_ROWS : Nat

/-- `REGISTER_TABLE_DIMENSIONS(name, offset, arch, min_rev, max_rev, step,
rows)`. -/
def REGISTER_TABLE_DIMENSIONS (offset minr maxr step rows : Nat) :
    efx_nic_reg_table := ⟨offset, minr, maxr, step, rows⟩

/-- `REGISTER_TABLE_BB_CZ(name)`: two table entries sharing the `FR_BZ`
offset and step, one for revision B..B with the `FR_BB` row count, one
for revision C..Z with the `FR_CZ` row count. -/
def REGISTER_TABLE_BB_CZ (offset step rowsBB rowsCZ : Nat) :
    List efx_nic_reg_table :=
  [REGISTER_TABLE_DIMENSIONS offset 2 2 step rowsBB,
    REGISTER_TABLE_DIMENSIONS offset 3 3 step rowsCZ]

/-- The table catalogue of nic.c, in source order. -/
def efx_nic_reg_tables (c : TableConsts) : List efx_nic_reg_table :=
  [REGISTER_TABLE_DIMENSIONS c.FR_BB_TX_IPFIL_TBL 2 2
      c.FR_BB_TX_IPFIL_TBL_STEP c.FR_BB_TX_IPFIL_TBL_ROWS,
    REGISTER_TABLE_DIMENSIONS c.FR_BB_TX_SRC_MAC_TBL 2 2
      c.FR_BB_TX_SRC_MAC_TBL_STEP c.FR_BB_TX_SRC_MAC_TBL_ROWS,
    REGISTER_TABLE_DIMENSIONS c.FR_AA_RX_DESC_PTR_TBL_KER 1 1
      c.FR_AA_RX_DESC_PTR_TBL_KER_STEP c.FR_AA_RX_DESC_PTR_TBL_KER_ROWS]
  ++ REGISTER_TABLE_BB_CZ c.FR_BZ_RX_DESC_PTR_TBL c.FR_BZ_RX_DESC_PTR_TBL_STEP
      c.FR_BB_RX_DESC_PTR_TBL_ROWS c.FR_CZ_RX_DESC_PTR_TBL_ROWS
  ++ [REGISTER_TABLE_DIMENSIONS c.FR_AA_TX_DESC_PTR_TBL_KER 1 1
      c.FR_AA_TX_DESC_PTR_TBL_KER_STEP c.FR_AA_TX_DESC_PTR_TBL_KER_ROWS]
  ++ REGISTER_TABLE_BB_CZ c.FR_BZ_TX_DESC_PTR_TBL c.FR_BZ_TX_DESC_PTR_TBL_STEP
      c.FR_BB_TX_DESC_PTR_TBL_ROWS c.FR_CZ_TX_DESC_PTR_TBL_ROWS
  ++ [REGISTER_TABLE_DIMENSIONS c.FR_AA_EVQ_PTR_TBL_KER 1 1
      c.FR_AA_EVQ_PTR_TBL_KER_STEP c.FR_AA_EVQ_PTR_TBL_KER_ROWS]
  ++ REGISTER_TABLE_BB_CZ c.FR_BZ_EVQ_PTR_TBL c.FR_BZ_EVQ_PTR_TBL_STEP
      c.FR_BB_EVQ_PTR_TBL_ROWS c.FR_CZ_EVQ_PTR_TBL_ROWS
  ++ [REGISTER_TABLE_DIMENSIONS c.FR_AA_BUF_FULL_TBL_KER 1 1 8 1024,
    REGISTER_TABLE_DIMENSIONS c.FR_BZ_BUF_FULL_TBL 2 3 8 1024,
    REGISTER_TABLE_DIMENSIONS c.FR_CZ_RX_MAC_FILTER_TBL0 3 3
      c.FR_CZ_RX_MAC_FILTER_TBL0_STEP c.FR_CZ_RX_MAC_FILTER_TBL0_ROWS]
  ++ REGISTER_TABLE_BB_CZ c.FR_BZ_TIMER_TBL c.FR_BZ_TIMER_TBL_STEP
      c.FR_BB_TIMER_TBL_ROWS c.FR_CZ_TIMER_TBL_ROWS
  ++ REGISTER_TABLE_BB_CZ c.FR_BZ_TX_PACE_TBL c.FR_BZ_TX_PACE_TBL_STEP
      c.FR_BB_TX_PACE_TBL_ROWS c.FR_CZ_TX_PACE_TBL_ROWS
  ++ [REGISTER_TABLE_DIMENSIONS c.FR_BZ_RX_INDIRECTION_TBL 2 3
      c.FR_BZ_RX_INDIRECTION_TBL_STEP c.FR_BZ_RX_INDIRECTION_TBL_ROWS,
    REGISTER_TABLE_DIMENSIONS c.FR_CZ_TX_MAC_FILTER_TBL0 3 3
      c.FR_CZ_TX_MAC_FILTER_TBL0_STEP c.FR_CZ_TX_MAC_FILTER_TBL0_ROWS,
    REGISTER_TABLE_DIMENSIONS c.FR_CZ_MC_TREG_SMEM 3 3
      c.FR_CZ_MC_TREG_SMEM_STEP c.FR_CZ_MC_TREG_SMEM_ROWS,
    REGISTER_TABLE_DIMENSIONS c.FR_BZ_RX_FILTER_TBL0 2 3
      c.FR_BZ_RX_FILTER_TBL0_STEP c.FR_BZ_RX_FILTER_TBL0_ROWS,
    REGISTER_TABLE_DIMENSIONS c.ER_DZ_BIU_MC_SFT_STATUS 4 4
      c.ER_DZ_BIU_MC_SFT_STATUS_STEP c.ER_DZ_BIU_MC_SFT_STATUS_ROWS]

/-- The positions, in `efx_nic_reg_tables`, of the five dual-shape pairs
emitted by `REGISTER_TABLE_BB_CZ`: RX_DESC_PTR_TBL, TX_DESC_PTR_TBL,
EVQ_PTR_TBL, TIMER_TBL, TX_PACE_TBL. -/
def dualPairIdx : List (Nat × Nat) := [(3, 4), (6, 7), (9, 10), (14, 15), (16, 17)]

/-- Entry lookup in the table catalogue. -/
def tblAt (c : TableConsts) (i : Nat) : efx_nic_reg_table :=
  (efx_nic_reg_tables c).getD i ⟨0, 1, 1, 0, 0⟩

/-! ### Theorems -/

/-- Generic accounting lemma for the `len +=` loops of
`efx_nic_get_regs_len`. -/
lemma foldl_if_add (p : α → Bool) (f : α → Nat) :
    ∀ (l : List α) (init : Nat),
      l.foldl (fun acc x => if p x then acc + f x else acc) init
        = init + ((l.filter p).map f).sum := by
  intro l
  induction l with
  | nil => intro init; simp
  | cons x xs ih =>
      intro init
      by_cases h : p x
      · simp [List.foldl_cons, h, List.filter_cons, ih]
        omega
      · simp [List.foldl_cons, h, List.filter_cons, ih]

/-- A supported step never hits the `default` arm of the row switch. -/
lemma rowRead_isSome (t : efx_nic_reg_table)
    (hs : t.step = 4 ∨ t.step = 8 ∨ t.step = 16 ∨ t.step = 32) (i : Nat) :
    (rowRead t i).isSome = true := by
  rcases hs with h | h | h | h <;> simp [rowRead, h]

/-- With a supported step, the row loop runs to completion and advances the
buffer by exactly `min(step, 16)` bytes per remaining row. -/
lemma dumpRowsFrom_ok (t : efx_nic_reg_table)
    (hs : t.step = 4 ∨ t.step = 8 ∨ t.step = 16 ∨ t.step = 32) :
    ∀ i, (dumpRowsFrom t i).bytes = (t.rows - i) * min t.step 16 ∧
      (dumpRowsFrom t i).aborted = false := by
  have key : ∀ n i, t.rows - i ≤ n →
      (dumpRowsFrom t i).bytes = (t.rows - i) * min t.step 16 ∧
        (dumpRowsFrom t i).aborted = false := by
    intro n
    induction n with
    | zero =>
        intro i hle
        have hi : ¬ i < t.rows := by omega
        rw [dumpRowsFrom]
        simp [hi]
        omega
    | succ n ih =>
        intro i hle
        rw [dumpRowsFrom]
        by_cases hi : i < t.rows
        · obtain ⟨e, he⟩ := Option.isSome_iff_exists.mp (rowRead_isSome t hs i)
          obtain ⟨hb, ha⟩ := ih (i + 1) (by omega)
          have hrow : t.rows - i = (t.rows - (i + 1)) + 1 := by omega
          simp only [hi, dif_pos, he, hb, ha]
          refine ⟨?_, by simp⟩
          rw [hrow, Nat.succ_mul]
          omega
        · simp [hi]
          omega
  intro i
  exact key (t.rows - i) i (Nat.le_refl _)

/-- With supported steps throughout, the table pass of the dump writes
exactly `rows * min(step, 16)` bytes for each applicable table and never
aborts. -/
lemma dumpTables_ok (revision : Nat) :
    ∀ (tables : List efx_nic_reg_table),
      (∀ t ∈ tables, t.step = 4 ∨ t.step = 8 ∨ t.step = 16 ∨ t.step = 32) →
      (dumpTables revision tables).bytes
          = ((tables.filter (tableApplicable revision)).map
              (fun t => t.rows * min t.step 16)).sum ∧
        (dumpTables revision tables).aborted = false := by
  intro tables
  induction tables with
  | nil => intro _; simp [dumpTables]
  | cons t ts ih =>
      intro hs
      have ht := hs t (List.mem_cons_self t ts)
      have hts := ih (fun u hu => hs u (List.mem_cons_of_mem t hu))
      obtain ⟨hb, ha⟩ := dumpRowsFrom_ok t ht 0
      rw [dumpTables]
      by_cases happ : tableApplicable revision t
      · simp only [happ, if_pos, ha, if_neg, Bool.false_eq_true, not_false_iff]
        simp [List.filter_cons, happ, hts.1, hts.2, hb]
      · simp [happ, hts.1, hts.2, List.filter_cons]

/-- C1: for every device revision, the byte count returned by
`efx_nic_get_regs_len` equals the number of bytes written into the output
buffer by `efx_nic_get_regs`, for any flat-register catalogue and any
table catalogue whose steps satisfy the catalogue invariant
`step ∈ {4, 8, 16, 32}`: both passes filter with the identical
closed-interval revision test and charge 16 bytes per applicable flat
register and `rows * min(step, 16)` bytes per applicable table. -/
theorem get_regs_len_eq_bytes_written (revision : Nat)
    (regs : List efx_nic_reg) (tables : List efx_nic_reg_table)
    (hstep : ∀ t ∈ tables, t.step = 4 ∨ t.step = 8 ∨ t.step = 16 ∨ t.step = 32) :
    (efx_nic_get_regs revision regs tables).bytes
      = efx_nic_get_regs_len revision regs tables := by
  obtain ⟨hb, _⟩ := dumpTables_ok revision tables hstep
  simp only [efx_nic_get_regs, efx_nic_get_regs_len, hb,
    foldl_if_add (regApplicable revision) (fun _ => owordBytes) regs 0,
    foldl_if_add (tableApplicable revision) (fun t => t.rows * min t.step 16) tables 0,
    Nat.zero_add]
  have : ((List.filter (regApplicable revision) regs).map
      (fun _ => owordBytes)).sum
        = (List.filter (regApplicable revision) regs).length * owordBytes := by
    simp [List.map_const, List.sum_replicate, Nat.smul_one_eq_cast]
  omega

/-- Witness for C1 at a concrete two-register, two-table catalogue at
revision 2 (one step-32 table, one step-8 table). -/
theorem get_regs_len_eq_bytes_written_witness :
    (∀ t ∈ [(⟨0x100, 1, 3, 32, 3⟩ : efx_nic_reg_table), ⟨0x200, 2, 2, 8, 5⟩],
        t.step = 4 ∨ t.step = 8 ∨ t.step = 16 ∨ t.step = 32) ∧
      (efx_nic_get_regs 2 [⟨0x10, 1, 3⟩, ⟨0x20, 2, 2⟩]
          [⟨0x100, 1, 3, 32, 3⟩, ⟨0x200, 2, 2, 8, 5⟩]).bytes
        = efx_nic_get_regs_len 2 [⟨0x10, 1, 3⟩, ⟨0x20, 2, 2⟩]
            [⟨0x100, 1, 3, 32, 3⟩, ⟨0x200, 2, 2, 8, 5⟩] :=
  ⟨by decide, get_regs_len_eq_bytes_written 2 _ _ (by decide)⟩

/-- For a step-32 table the row loop reads the 128-bit register at physical
index `2*i` for each remaining logical row `i` and advances the buffer by
exactly `min(32, 16) = 16` bytes per row. -/
lemma dumpRowsFrom_step32 (t : efx_nic_reg_table) (h32 : t.step = 32) :
    ∀ i, dumpRowsFrom t i =
      ⟨(List.range' i (t.rows - i)).map
          (fun j => ReadEvent.reado_table t.offset (2 * j)),
        16 * (t.rows - i), false⟩ := by
  have key : ∀ n i, t.rows - i ≤ n → dumpRowsFrom t i =
      ⟨(List.range' i (t.rows - i)).map
          (fun j => ReadEvent.reado_table t.offset (2 * j)),
        16 * (t.rows - i), false⟩ := by
    intro n
    induction n with
    | zero =>
        intro i hle
        have hi : ¬ i < t.rows := by omega
        have hz : t.rows - i = 0 := by omega
        rw [dumpRowsFrom]
        simp [hi, hz]
    | succ n ih =>
        intro i hle
        rw [dumpRowsFrom]
        by_cases hi : i < t.rows
        · have he : rowRead t i = some (ReadEvent.reado_table t.offset (2 * i)) := by
            simp [rowRead, h32]
          have hrec := ih (i + 1) (by omega)
          have hrow : t.rows - i = (t.rows - (i + 1)) + 1 := by omega
          simp only [hi, dif_pos, he, hrec]
          rw [hrow, List.range'_succ]
          simp [DumpResult.mk.injEq]
          all_goals omega
        · have hz : t.rows - i = 0 := by omega
          simp [hi, hz]
  intro i
  exact key (t.rows - i) i (Nat.le_refl _)

/-- C2: for an applicable table descriptor with `step = 32`,
`efx_nic_get_regs` performs the 128-bit indexed table read at physical
index exactly `2*i` for every logical row `i < rows`, and advances the
output buffer by exactly 16 bytes per row (16 * rows in total), never
by 32. -/
theorem step32_table_reads_doubled_index (revision : Nat)
    (t : efx_nic_reg_table) (h32 : t.step = 32)
    (happ : tableApplicable revision t = true) :
    efx_nic_get_regs revision [] [t] =
      ⟨(List.range t.rows).map
          (fun i => ReadEvent.reado_table t.offset (2 * i)),
        16 * t.rows, false⟩ := by
  have hd := dumpRowsFrom_step32 t h32 0
  simp only [efx_nic_get_regs, dumpTables, happ, if_pos, hd]
  simp [List.range_eq_range', dumpTables]

/-- Witness for C2: a concrete applicable step-32 table with 3 rows at
revision 2; the three reads are at physical indices 0, 2, 4 and the buffer
advances 48 = 3 * 16 bytes. -/
theorem step32_table_reads_doubled_index_witness :
    tableApplicable 2 ⟨0x300, 2, 2, 32, 3⟩ = true ∧
      efx_nic_get_regs 2 [] [⟨0x300, 2, 2, 32, 3⟩] =
        ⟨[ReadEvent.reado_table 0x300 0, ReadEvent.reado_table 0x300 2,
            ReadEvent.reado_table 0x300 4], 48, false⟩ :=
  ⟨by decide,
    (step32_table_reads_doubled_index 2 ⟨0x300, 2, 2, 32, 3⟩ rfl
        (by decide)).trans (by decide)⟩

/-- Wrapping u64 subtraction agrees with Nat subtraction when no underflow
occurs. -/
lemma sub64_of_le (a b : Nat) (hb : b ≤ a) (ha : a < WORD64) :
    sub64 a b = a - b := by
  unfold sub64 WORD64 at *
  have hb' : b % 2 ^ 64 = b := Nat.mod_eq_of_lt (by omega)
  rw [hb']
  have h1 : a + (2 ^ 64 - b) = (a - b) + 2 ^ 64 := by omega
  rw [h1, Nat.add_mod_right]
  exact Nat.mod_eq_of_lt (by omega)

/-- Wrapping u64 addition agrees with Nat addition below the modulus. -/
lemma add64_of_lt (a b : Nat) (h : a + b < WORD64) : add64 a b = a + b :=
  Nat.mod_eq_of_lt h

/-- C3 counterexample: starting from
`(prev_state = false, total = 0, while_down = 0)`, the call sequence
raw=100 up, raw=150 down, raw=170 down yields corrected outputs 0, 0, 0 —
not 100, 100, 100 as claimed: because `prev_state` is false, the first
call folds the whole first delta (100) into `while_down`, so the
externally visible value freezes at 0. -/
theorem fix_nodesc_scenario_counterexample :
    runNodesc ⟨0, 0, false⟩ [(100, true), (150, false), (170, false)]
        = [0, 0, 0] ∧
      ([0, 0, 0] : List Nat) ≠ [100, 100, 100] :=
  ⟨by decide, by decide⟩

/-- C3 amended: on each serial call, if the link is down or `prev_state`
is false, the delta (raw minus stored total) is folded into `while_down`;
the stored total and `prev_state` are always updated to the current raw
value and link state; the value passed back is the raw total minus the
updated `while_down`.  In particular, from
`(prev_state = false, total = 0, while_down = 0)` the sequence raw=100 up,
raw=150 down, raw=170 down yields corrected outputs 0, 0, 0: the
externally visible value freezes while the link is down (here at 0, since
the first observation is folded too). -/
theorem fix_nodesc_drop_stat_spec (up : Bool) (st : NodescState) (raw : Nat)
    (hraw : raw < WORD64)
    (htot : st.rx_nodesc_drops_total ≤ raw)
    (hwd : st.rx_nodesc_drops_while_down ≤ st.rx_nodesc_drops_total) :
    (efx_nic_fix_nodesc_drop_stat up st raw).1.rx_nodesc_drops_total = raw ∧
    (efx_nic_fix_nodesc_drop_stat up st raw).1.rx_nodesc_drops_prev_state = up ∧
    (efx_nic_fix_nodesc_drop_stat up st raw).1.rx_nodesc_drops_while_down
      = (if up = false ∨ st.rx_nodesc_drops_prev_state = false then
          st.rx_nodesc_drops_while_down + (raw - st.rx_nodesc_drops_total)
        else st.rx_nodesc_drops_while_down) ∧
    (efx_nic_fix_nodesc_drop_stat up st raw).2
      = raw - (efx_nic_fix_nodesc_drop_stat up st raw).1.rx_nodesc_drops_while_down ∧
    runNodesc ⟨0, 0, false⟩ [(100, true), (150, false), (170, false)]
      = [0, 0, 0] := by
  have hfold : add64 st.rx_nodesc_drops_while_down
      (sub64 raw st.rx_nodesc_drops_total)
        = st.rx_nodesc_drops_while_down + (raw - st.rx_nodesc_drops_total) := by
    rw [sub64_of_le raw st.rx_nodesc_drops_total htot hraw]
    exact add64_of_lt _ _ (by omega)
  have hout : ∀ wd, wd ≤ raw → sub64 raw wd = raw - wd := fun wd h =>
    sub64_of_le raw wd h hraw
  refine ⟨rfl, rfl, ?_, ?_, by decide⟩
  · cases up <;> cases h : st.rx_nodesc_drops_prev_state <;>
      simp [efx_nic_fix_nodesc_drop_stat, h, hfold]
  · cases up <;> cases h : st.rx_nodesc_drops_prev_state <;>
      simp [efx_nic_fix_nodesc_drop_stat, h, hfold] <;>
      exact hout _ (by omega)

/-- Witness for C3's amended theorem at a concrete input: link up,
state `(total = 5, while_down = 2, prev_state = false)`, raw = 9; the
first-observation fold applies, giving `while_down = 6` and corrected
output 3. -/
theorem fix_nodesc_drop_stat_spec_witness :
    (9 : Nat) < WORD64 ∧ (5 : Nat) ≤ 9 ∧ (2 : Nat) ≤ 5 ∧
      ((efx_nic_fix_nodesc_drop_stat true ⟨5, 2, false⟩ 9).1.rx_nodesc_drops_total = 9 ∧
        (efx_nic_fix_nodesc_drop_stat true ⟨5, 2, false⟩ 9).1.rx_nodesc_drops_prev_state = true ∧
        (efx_nic_fix_nodesc_drop_stat true ⟨5, 2, false⟩ 9).1.rx_nodesc_drops_while_down
          = (if true = false ∨ false = false then 2 + (9 - 5) else 2) ∧
        (efx_nic_fix_nodesc_drop_stat true ⟨5, 2, false⟩ 9).2
          = 9 - (efx_nic_fix_nodesc_drop_stat true ⟨5, 2, false⟩ 9).1.rx_nodesc_drops_while_down ∧
        runNodesc ⟨0, 0, false⟩ [(100, true), (150, false), (170, false)]
          = [0, 0, 0]) :=
  ⟨by decide, by decide, by decide,
    fix_nodesc_drop_stat_spec true ⟨5, 2, false⟩ 9 (by decide) (by decide) (by decide)⟩

/-! Helper lemmas about the statistics update loop. -/

lemma getD_set_self (l : List Nat) (i v : Nat) (h : i < l.length) :
    (l.set i v).getD i 0 = v := by
  rw [List.getD_eq_getElem?_getD, List.getElem?_set_eq_of_lt v h]
  rfl

lemma getD_set_ne (l : List Nat) (i j v : Nat) (h : j ≠ i) :
    (l.set j v).getD i 0 = l.getD i 0 := by
  rw [List.getD_eq_getElem?_getD, List.getElem?_set_ne h,
    ← List.getD_eq_getElem?_getD]

lemma updateStep_length (desc : List efx_hw_stat_desc) (buf : Nat → Nat)
    (a : Bool) (st : List Nat × Bool) (j : Nat) :
    (updateStep desc buf a st j).1.length = st.1.length := by
  unfold updateStep
  by_cases h : (descGet desc j).dma_width ≠ 0
  · simp only [if_pos h]
    cases a <;> simp [List.length_set]
  · simp only [if_neg h]

lemma updateStep_getD_ne (desc : List efx_hw_stat_desc) (buf : Nat → Nat)
    (a : Bool) (st : List Nat × Bool) (j i : Nat) (h : j ≠ i) :
    (updateStep desc buf a st j).1.getD i 0 = st.1.getD i 0 := by
  unfold updateStep
  by_cases hw : (descGet desc j).dma_width ≠ 0
  · simp only [if_pos hw]
    cases a
    · exact getD_set_ne _ _ _ _ h
    · exact getD_set_ne _ _ _ _ h
  · simp only [if_neg hw]

lemma updateStep_warned_mono (desc : List efx_hw_stat_desc) (buf : Nat → Nat)
    (a : Bool) (st : List Nat × Bool) (j : Nat) (h : st.2 = true) :
    (updateStep desc buf a st j).2 = true := by
  unfold updateStep
  by_cases hw : (descGet desc j).dma_width ≠ 0
  · simp only [if_pos hw]
    split_ifs <;> simp [h]
  · simp only [if_neg hw]
    exact h

/-- The loop step for index `i` with an unsupported nonzero width reports
the `WARN_ON(1)` firing. -/
lemma updateStep_bad_warns (desc : List efx_hw_stat_desc) (buf : Nat → Nat)
    (a : Bool) (st : List Nat × Bool) (i : Nat)
    (h0 : (descGet desc i).dma_width ≠ 0) (h16 : (descGet desc i).dma_width ≠ 16)
    (h32 : (descGet desc i).dma_width ≠ 32)
    (h64 : (descGet desc i).dma_width ≠ 64) :
    (updateStep desc buf a st i).2 = true := by
  simp [updateStep, h0, h16, h32, h64]

lemma foldl_updateStep_getD_ne (desc : List efx_hw_stat_desc)
    (buf : Nat → Nat) (a : Bool) :
    ∀ (L : List Nat) (st : List Nat × Bool) (i : Nat), i ∉ L →
      (L.foldl (updateStep desc buf a) st).1.getD i 0 = st.1.getD i 0 := by
  intro L
  induction L with
  | nil => intro st i _; rfl
  | cons j tl ih =>
      intro st i hi
      have h1 : i ≠ j := fun h => hi (h ▸ List.mem_cons_self j tl)
      have h2 : i ∉ tl := fun h => hi (List.mem_cons_of_mem j h)
      rw [List.foldl_cons, ih _ i h2,
        updateStep_getD_ne desc buf a st j i (Ne.symm h1)]

lemma foldl_updateStep_length (desc : List efx_hw_stat_desc)
    (buf : Nat → Nat) (a : Bool) :
    ∀ (L : List Nat) (st : List Nat × Bool),
      (L.foldl (updateStep desc buf a) st).1.length = st.1.length := by
  intro L
  induction L with
  | nil => intro st; rfl
  | cons j tl ih =>
      intro st
      rw [List.foldl_cons, ih, updateStep_length]

lemma foldl_updateStep_warned_mono (desc : List efx_hw_stat_desc)
    (buf : Nat → Nat) (a : Bool) :
    ∀ (L : List Nat) (st : List Nat × Bool), st.2 = true →
      (L.foldl (updateStep desc buf a) st).2 = true := by
  intro L
  induction L with
  | nil => intro st h; exact h
  | cons j tl ih =>
      intro st h
      rw [List.foldl_cons]
      exact ih _ (updateStep_warned_mono desc buf a st j h)

/-- Splitting the `for_each_set_bit` iteration at a set bit `i`. -/
lemma for_each_set_bit_split (mask : Nat → Bool) (count i : Nat)
    (hi : i < count) (hm : mask i = true) :
    for_each_set_bit mask count
      = (List.range i).filter mask
          ++ i :: (List.range' (i + 1) (count - (i + 1))).filter mask := by
  unfold for_each_set_bit
  have hc : count = i + (count - i) := by omega
  conv_lhs => rw [hc]
  rw [List.range_add, List.filter_append]
  have hr : (List.range (count - i)).map (i + ·) = List.range' i (count - i) :=
    (List.range'_eq_map_range i (count - i)).symm
  have hr2 : List.range' i (count - i) = i :: List.range' (i + 1) (count - (i + 1)) := by
    have hs : count - i = (count - (i + 1)) + 1 := by omega
    rw [hs, List.range'_succ]
  rw [hr, hr2]
  simp [List.filter_cons, hm]

/-- The loop step for index `i` writes position `i` as a function of the
incoming value at `i` alone. -/
lemma updateStep_getD_self_congr (desc : List efx_hw_stat_desc)
    (buf : Nat → Nat) (a : Bool) (st1 st2 : List Nat × Bool) (i : Nat)
    (hD : st1.1.getD i 0 = st2.1.getD i 0)
    (h1 : i < st1.1.length) (h2 : i < st2.1.length) :
    (updateStep desc buf a st1 i).1.getD i 0
      = (updateStep desc buf a st2 i).1.getD i 0 := by
  unfold updateStep
  by_cases hw : (descGet desc i).dma_width ≠ 0
  · simp only [if_pos hw]
    cases a
    · show (st1.1.set i _).getD i 0 = (st2.1.set i _).getD i 0
      rw [getD_set_self _ _ _ h1, getD_set_self _ _ _ h2]
      split_ifs <;> rfl
    · show (st1.1.set i _).getD i 0 = (st2.1.set i _).getD i 0
      rw [getD_set_self _ _ _ h1, getD_set_self _ _ _ h2, hD]
      split_ifs <;> rfl
  · simp only [if_neg hw]
    exact hD

/-- The value `efx_nic_update_stats` leaves at an enabled index `i` is the
one the loop body computes from the original `stats[i]`. -/
lemma update_stats_getD_at (desc : List efx_hw_stat_desc) (count : Nat)
    (mask : Nat → Bool) (stats : List Nat) (buf : Nat → Nat) (a : Bool)
    (i : Nat) (hi : i < count) (hm : mask i = true) (hlen : i < stats.length) :
    (efx_nic_update_stats desc count mask stats buf a).1.getD i 0
      = (updateStep desc buf a (stats, false) i).1.getD i 0 := by
  unfold efx_nic_update_stats
  rw [for_each_set_bit_split mask count i hi hm, List.foldl_append,
    List.foldl_cons]
  have hmem1 : i ∉ (List.range i).filter mask := fun h => by
    have := List.mem_range.mp (List.mem_of_mem_filter h)
    omega
  have hmem2 : i ∉ (List.range' (i + 1) (count - (i + 1))).filter mask :=
    fun h => by
      have := List.mem_range'_1.mp (List.mem_of_mem_filter h)
      omega
  rw [foldl_updateStep_getD_ne desc buf a _ _ i hmem2]
  have hmidD : (((List.range i).filter mask).foldl (updateStep desc buf a)
      (stats, false)).1.getD i 0 = stats.getD i 0 :=
    foldl_updateStep_getD_ne desc buf a _ _ i hmem1
  have hmidL : (((List.range i).filter mask).foldl (updateStep desc buf a)
      (stats, false)).1.length = stats.length :=
    foldl_updateStep_length desc buf a _ _
  exact updateStep_getD_self_congr desc buf a _ _ i hmidD (by omega) hlen

/-- The stats array keeps its length. -/
lemma update_stats_length (desc : List efx_hw_stat_desc) (count : Nat)
    (mask : Nat → Bool) (stats : List Nat) (buf : Nat → Nat) (a : Bool) :
    (efx_nic_update_stats desc count mask stats buf a).1.length
      = stats.length :=
  foldl_updateStep_length desc buf a _ _

/-- C10: `efx_nic_update_stats` never touches `stats[i]` for an index `i`
in `[0, count)` whose bit is not set in the mask, whatever the descriptor
array, the DMA snapshot and the accumulate flag. -/
theorem update_stats_frame_outside_mask (desc : List efx_hw_stat_desc)
    (count : Nat) (mask : Nat → Bool) (stats : List Nat) (buf : Nat → Nat)
    (a : Bool) (i : Nat) (hi : i < count) (hm : mask i = false) :
    (efx_nic_update_stats desc count mask stats buf a).1.getD i 0
      = stats.getD i 0 := by
  unfold efx_nic_update_stats
  apply foldl_updateStep_getD_ne
  intro hmem
  have := List.of_mem_filter hmem
  rw [hm] at this
  exact absurd this (by simp)

/-- Witness for C10: with bit 0 clear, `stats[0]` survives an update that
decodes nothing. -/
theorem update_stats_frame_outside_mask_witness :
    (0 : Nat) < 1 ∧ (fun _ : Nat => false) 0 = false ∧
      (efx_nic_update_stats [⟨none, 16, 0⟩] 1 (fun _ => false) [3]
          (fun _ => 9) false).1.getD 0 0 = ([3] : List Nat).getD 0 0 :=
  ⟨by decide, rfl,
    update_stats_frame_outside_mask [⟨none, 16, 0⟩] 1 (fun _ => false) [3]
      (fun _ => 9) false 0 (by decide) rfl⟩

/-- C4 counterexample: descriptor 0 is enabled with the unsupported
`dma_width = 8`; `efx_nic_update_stats` does NOT abort: it fires
`WARN_ON(1)` (the `true` flag), stores the substitute value 0 over the
previous `stats[0] = 7`, and still decodes descriptor 1 (width 16) into
`stats[1]`. -/
theorem update_stats_bad_width_counterexample :
    efx_nic_update_stats [⟨none, 8, 0⟩, ⟨none, 16, 2⟩] 2 (fun _ => true)
        [7, 7] (fun k => if k = 2 then 5 else 0) false = ([0, 5], true) ∧
      ([0, 5] : List Nat) ≠ [7, 7] :=
  ⟨by decide, by decide⟩

/-- C4 amended: an enabled descriptor with nonzero `dma_width` outside
{16, 32, 64} fires the `WARN_ON(1)` assertion (reported by the flag), but
the operation is not aborted: the substitute value 0 is stored into
`stats[i]` when `accumulate = false` (and added, i.e. `stats[i]` is left
unchanged mod 2^64, when `accumulate = true`), and the loop continues with
the remaining enabled indices. -/
theorem update_stats_bad_width_spec (desc : List efx_hw_stat_desc)
    (count : Nat) (mask : Nat → Bool) (stats : List Nat) (buf : Nat → Nat)
    (i : Nat) (hi : i < count) (hm : mask i = true) (hlen : i < stats.length)
    (h0 : (descGet desc i).dma_width ≠ 0)
    (h16 : (descGet desc i).dma_width ≠ 16)
    (h32 : (descGet desc i).dma_width ≠ 32)
    (h64 : (descGet desc i).dma_width ≠ 64) :
    (efx_nic_update_stats desc count mask stats buf false).1.getD i 0 = 0 ∧
      (efx_nic_update_stats desc count mask stats buf false).2 = true ∧
      (efx_nic_update_stats desc count mask stats buf true).1.getD i 0
        = add64 (stats.getD i 0) 0 := by
  refine ⟨?_, ?_, ?_⟩
  · rw [update_stats_getD_at desc count mask stats buf false i hi hm hlen]
    simp only [updateStep, if_pos h0, if_neg h16, if_neg h32, if_neg h64]
    exact getD_set_self _ _ _ hlen
  · unfold efx_nic_update_stats
    rw [for_each_set_bit_split mask count i hi hm, List.foldl_append,
      List.foldl_cons]
    exact foldl_updateStep_warned_mono desc buf false _ _
      (updateStep_bad_warns desc buf false _ i h0 h16 h32 h64)
  · rw [update_stats_getD_at desc count mask stats buf true i hi hm hlen]
    simp only [updateStep, if_pos h0, if_neg h16, if_neg h32, if_neg h64]
    exact getD_set_self _ _ _ hlen

/-- Witness for C4's amended theorem: width 8 at enabled index 0 over
`stats = [7]` gives 0 (non-accumulating), the warning flag, and
`(7 + 0) % 2^64` (accumulating). -/
theorem update_stats_bad_width_spec_witness :
    (0 : Nat) < 1 ∧ (fun _ : Nat => true) 0 = true ∧
      (0 : Nat) < ([7] : List Nat).length ∧
      ((efx_nic_update_stats [⟨none, 8, 0⟩] 1 (fun _ => true) [7]
            (fun _ => 0) false).1.getD 0 0 = 0 ∧
        (efx_nic_update_stats [⟨none, 8, 0⟩] 1 (fun _ => true) [7]
            (fun _ => 0) false).2 = true ∧
        (efx_nic_update_stats [⟨none, 8, 0⟩] 1 (fun _ => true) [7]
            (fun _ => 0) true).1.getD 0 0 = add64 (([7] : List Nat).getD 0 0) 0) :=
  ⟨by decide, rfl, by decide,
    update_stats_bad_width_spec [⟨none, 8, 0⟩] 1 (fun _ => true) [7]
      (fun _ => 0) 0 (by decide) rfl (by decide) (by decide) (by decide)
      (by decide) (by decide)⟩

/-- Composing two wrapping u64 additions. -/
lemma add64_add64 (a b c : Nat) : add64 (add64 a b) c = (a + b + c) % WORD64 := by
  unfold add64
  rw [Nat.mod_add_mod]

/-- The loop body at an enabled index with a supported nonzero width:
decode `nb` bytes little-endian and store or accumulate. -/
lemma update_stats_good_width (desc : List efx_hw_stat_desc) (count : Nat)
    (mask : Nat → Bool) (stats : List Nat) (buf : Nat → Nat) (i : Nat)
    (hi : i < count) (hm : mask i = true) (hlen : i < stats.length)
    (nb : Nat)
    (hwcase : ((descGet desc i).dma_width = 16 ∧ nb = 2)
      ∨ ((descGet desc i).dma_width = 32 ∧ nb = 4)
      ∨ ((descGet desc i).dma_width = 64 ∧ nb = 8)) :
    (efx_nic_update_stats desc count mask stats buf false).1.getD i 0
        = le_decode buf (descGet desc i).offset nb ∧
      (efx_nic_update_stats desc count mask stats buf true).1.getD i 0
        = add64 (stats.getD i 0) (le_decode buf (descGet desc i).offset nb) := by
  constructor
  · rw [update_stats_getD_at desc count mask stats buf false i hi hm hlen]
    rcases hwcase with ⟨hw, hnb⟩ | ⟨hw, hnb⟩ | ⟨hw, hnb⟩ <;>
      subst hnb <;>
      simp only [updateStep, hw, ne_eq, OfNat.ofNat_ne_zero, not_false_iff,
        if_true, if_pos, reduceIte] <;>
      exact getD_set_self _ _ _ hlen
  · rw [update_stats_getD_at desc count mask stats buf true i hi hm hlen]
    rcases hwcase with ⟨hw, hnb⟩ | ⟨hw, hnb⟩ | ⟨hw, hnb⟩ <;>
      subst hnb <;>
      simp only [updateStep, hw, ne_eq, OfNat.ofNat_ne_zero, not_false_iff,
        if_true, if_pos, reduceIte] <;>
      exact getD_set_self _ _ _ hlen

/-- C7: at every enabled index `i < count` whose descriptor width is 16,
32 or 64, a non-accumulating `efx_nic_update_stats` stores the
little-endian decode of `dma_width` bits at the descriptor's byte offset;
an accumulating call adds that decode (u64 addition); two successive
accumulating calls over snapshots `buf1`, `buf2` leave
`(stats[i] + decode1 + decode2) mod 2^64`; and an enabled descriptor with
`dma_width = 0` leaves `stats[i]` unchanged. -/
theorem update_stats_decode_spec (desc : List efx_hw_stat_desc)
    (count : Nat) (mask : Nat → Bool) (stats : List Nat)
    (buf1 buf2 : Nat → Nat) (a : Bool) (i : Nat)
    (hi : i < count) (hm : mask i = true) (hlen : i < stats.length) :
    (((descGet desc i).dma_width = 16 ∨ (descGet desc i).dma_width = 32
        ∨ (descGet desc i).dma_width = 64) →
      ((efx_nic_update_stats desc count mask stats buf1 false).1.getD i 0
          = le_decode buf1 (descGet desc i).offset ((descGet desc i).dma_width / 8) ∧
        (efx_nic_update_stats desc count mask stats buf1 true).1.getD i 0
          = add64 (stats.getD i 0)
              (le_decode buf1 (descGet desc i).offset ((descGet desc i).dma_width / 8)) ∧
        (efx_nic_update_stats desc count mask
            (efx_nic_update_stats desc count mask stats buf1 true).1
            buf2 true).1.getD i 0
          = (stats.getD i 0
              + le_decode buf1 (descGet desc i).offset ((descGet desc i).dma_width / 8)
              + le_decode buf2 (descGet desc i).offset ((descGet desc i).dma_width / 8))
            % WORD64)) ∧
      ((descGet desc i).dma_width = 0 →
        (efx_nic_update_stats desc count mask stats buf1 a).1.getD i 0
          = stats.getD i 0) := by
  constructor
  · intro hw
    have hnb : ((descGet desc i).dma_width = 16 ∧ (descGet desc i).dma_width / 8 = 2)
        ∨ ((descGet desc i).dma_width = 32 ∧ (descGet desc i).dma_width / 8 = 4)
        ∨ ((descGet desc i).dma_width = 64 ∧ (descGet desc i).dma_width / 8 = 8) := by
      rcases hw with h | h | h <;> simp [h]
    obtain ⟨hset1, hadd1⟩ :=
      update_stats_good_width desc count mask stats buf1 i hi hm hlen _ hnb
    have hlen' : i < (efx_nic_update_stats desc count mask stats buf1 true).1.length := by
      rw [update_stats_length]
      exact hlen
    obtain ⟨_, hadd2⟩ :=
      update_stats_good_width desc count mask
        (efx_nic_update_stats desc count mask stats buf1 true).1 buf2 i hi hm hlen' _ hnb
    refine ⟨hset1, hadd1, ?_⟩
    rw [hadd2, hadd1, add64_add64]
  · intro hw
    rw [update_stats_getD_at desc count mask stats buf1 a i hi hm hlen]
    simp [updateStep, hw]

/-- Witness for C7 at a concrete input: one enabled 16-bit counter over
`stats = [10]`; snapshot 1 decodes to 1, snapshot 2 decodes to 2. -/
theorem update_stats_decode_spec_witness :
    (0 : Nat) < 1 ∧ (fun _ : Nat => true) 0 = true ∧
      (0 : Nat) < ([10] : List Nat).length ∧
      ((((descGet [⟨none, 16, 0⟩] 0).dma_width = 16
          ∨ (descGet [⟨none, 16, 0⟩] 0).dma_width = 32
          ∨ (descGet [⟨none, 16, 0⟩] 0).dma_width = 64) →
        ((efx_nic_update_stats [⟨none, 16, 0⟩] 1 (fun _ => true) [10]
              (fun k => if k = 0 then 1 else 0) false).1.getD 0 0
            = le_decode (fun k => if k = 0 then 1 else 0)
                (descGet [⟨none, 16, 0⟩] 0).offset
                ((descGet [⟨none, 16, 0⟩] 0).dma_width / 8) ∧
          (efx_nic_update_stats [⟨none, 16, 0⟩] 1 (fun _ => true) [10]
              (fun k => if k = 0 then 1 else 0) true).1.getD 0 0
            = add64 (([10] : List Nat).getD 0 0)
                (le_decode (fun k => if k = 0 then 1 else 0)
                  (descGet [⟨none, 16, 0⟩] 0).offset
                  ((descGet [⟨none, 16, 0⟩] 0).dma_width / 8)) ∧
          (efx_nic_update_stats [⟨none, 16, 0⟩] 1 (fun _ => true)
              (efx_nic_update_stats [⟨none, 16, 0⟩] 1 (fun _ => true) [10]
                (fun k => if k = 0 then 1 else 0) true).1
              (fun k => if k = 0 then 2 else 0) true).1.getD 0 0
            = (([10] : List Nat).getD 0 0
                + le_decode (fun k => if k = 0 then 1 else 0)
                    (descGet [⟨none, 16, 0⟩] 0).offset
                    ((descGet [⟨none, 16, 0⟩] 0).dma_width / 8)
                + le_decode (fun k => if k = 0 then 2 else 0)
                    (descGet [⟨none, 16, 0⟩] 0).offset
                    ((descGet [⟨none, 16, 0⟩] 0).dma_width / 8))
              % WORD64)) ∧
        ((descGet [⟨none, 16, 0⟩] 0).dma_width = 0 →
          (efx_nic_update_stats [⟨none, 16, 0⟩] 1 (fun _ => true) [10]
              (fun k => if k = 0 then 1 else 0) false).1.getD 0 0
            = ([10] : List Nat).getD 0 0)) :=
  ⟨by decide, rfl, by decide,
    update_stats_decode_spec [⟨none, 16, 0⟩] 1 (fun _ => true) [10]
      (fun k => if k = 0 then 1 else 0) (fun k => if k = 0 then 2 else 0)
      false 0 (by decide) rfl (by decide)⟩

/-- Running the describe loop over any index list appends the (truncated)
names of the named indices in order and counts them. -/
lemma describe_foldl (desc : List efx_hw_stat_desc) :
    ∀ (L : List Nat) (c : Nat) (ns : List String),
      L.foldl
          (fun acc index =>
            match (descGet desc index).name with
            | some n => (acc.1 + 1, acc.2 ++ [strlcpyName n])
            | none => acc)
          (c, ns)
        = (c + (L.filter (fun i => ((descGet desc i).name).isSome)).length,
            ns ++ L.filterMap (fun i => ((descGet desc i).name).map strlcpyName)) := by
  intro L
  induction L with
  | nil => intro c ns; simp
  | cons j tl ih =>
      intro c ns
      rw [List.foldl_cons]
      cases hn : (descGet desc j).name with
      | none =>
          simp only [hn, ih, List.filter_cons, List.filterMap_cons, hn,
            Option.isSome_none, Bool.false_eq_true, if_false, Option.map_none']
      | some n =>
          simp only [hn, ih, List.filter_cons, List.filterMap_cons,
            Option.isSome_some, if_true, Option.map_some', List.length_cons]
          refine Prod.ext ?_ ?_
          · simp
            omega
          · simp

/-- C6 counterexample: an enabled descriptor whose name has 35 characters;
`strlcpy` into the 32-byte stride writes only the first
`ETH_GSTRING_LEN - 1 = 31` characters, so the name written is not exactly
the descriptor's name. -/
theorem describe_stats_truncation_counterexample :
    (efx_nic_describe_stats
        [⟨some "aaaaaaaaaaaaaaaaaaaaaaaaaaaaaaaaaaa", 0, 0⟩] 1
        (fun _ => true)).2
        = ["aaaaaaaaaaaaaaaaaaaaaaaaaaaaaaa"] ∧
      (["aaaaaaaaaaaaaaaaaaaaaaaaaaaaaaa"] : List String)
        ≠ ["aaaaaaaaaaaaaaaaaaaaaaaaaaaaaaaaaaa"] :=
  ⟨by decide, by decide⟩

/-- C6 amended: `efx_nic_describe_stats` returns exactly the number of
indices in `[0, count)` whose bit is set in the mask and whose descriptor
has a name (a non-NULL pointer); the name slots written are those
descriptors' names, each truncated by `strlcpy` to at most
`ETH_GSTRING_LEN - 1` characters (hence exactly the descriptor names
whenever they fit the stride), in ascending index order; enabled indices
without a name are skipped: not counted and no slot written. -/
theorem describe_stats_spec (desc : List efx_hw_stat_desc) (count : Nat)
    (mask : Nat → Bool) :
    (efx_nic_describe_stats desc count mask).1
        = ((List.range count).filter
            (fun i => mask i && ((descGet desc i).name).isSome)).length ∧
      (efx_nic_describe_stats desc count mask).2
        = (for_each_set_bit mask count).filterMap
            (fun i => ((descGet desc i).name).map strlcpyName) := by
  unfold efx_nic_describe_stats for_each_set_bit
  rw [describe_foldl desc]
  constructor
  · rw [List.filter_filter]
    simp only [Nat.zero_add]
    congr 1
    apply List.filter_congr
    intro i _
    exact Bool.and_comm _ _
  · simp

/-- The irqs bound by the channel loop are exactly the irqs of the first
`n_irqs` channels, in channel order. -/
lemma bindLoop_bound_is_take (cfg : IrqConfig) :
    ∀ chs : List IrqChannel,
      (bindLoop cfg chs).1
        = (chs.take (bindLoop cfg chs).1.length).map (fun ch => ch.irq) := by
  intro chs
  induction chs with
  | nil => rfl
  | cons ch rest ih =>
      rw [bindLoop]
      by_cases h1 : cfg.request_irq ch.irq ≠ 0
      · simp [h1]
      · by_cases h2 : cfg.msix ∧ ch.channel < cfg.n_rx_channels
        · by_cases h3 : cfg.rmap_add ch.irq ≠ 0
          · simp [h1, h2, h3]
          · simp only [h1, h2, h3, if_true, if_false, ite_false, ite_true,
              not_false_iff, not_true, ite_not, and_self, List.length_cons,
              List.take_succ_cons, List.map_cons]
            simp [h3, List.cons.injEq]
            rw [← List.map_take]
            exact ih
        · simp only [h1, h2, if_true, if_false, ite_false, ite_true,
            not_false_iff, ite_not, List.length_cons, List.take_succ_cons,
            List.map_cons]
          simp [h2]
          rw [← List.map_take]
          exact ih

/-- C5 counterexample: three channels with irqs 10, 11, 12; hooking irq 12
fails.  The unwind releases the two bound vectors in FORWARD binding order
(`free 10` then `free 11`), not in reverse order as claimed. -/
theorem init_interrupt_reverse_order_counterexample :
    (efx_nic_init_interrupt ⟨true, false, 0, 0, [⟨0, 10⟩, ⟨1, 11⟩, ⟨2, 12⟩],
          fun irq => if irq = 12 then -1 else 0, fun _ => 0, true⟩).1
        = [IrqEvent.bindIrq 10, IrqEvent.bindIrq 11,
            IrqEvent.freeIrq 10, IrqEvent.freeIrq 11] ∧
      ([IrqEvent.freeIrq 10, IrqEvent.freeIrq 11] : List IrqEvent)
        ≠ [IrqEvent.freeIrq 11, IrqEvent.freeIrq 10] :=
  ⟨by decide, by decide⟩

/-- C5 amended: in message-signaled mode, when hooking a channel's vector
(or its receive-steering registration) fails, `efx_nic_init_interrupt`
releases the CPU-affinity map (when MSI-X allocated one) and then releases
every vector bound so far — the same irqs, in the same forward binding
order, leaving no partially registered interrupt state — before returning
the error. -/
theorem init_interrupt_unwind_spec (cfg : IrqConfig)
    (hmsi : cfg.use_msi = true)
    (halloc : cfg.msix = true → cfg.alloc_rmap_ok = true)
    (hfail : (bindLoop cfg cfg.channels).2 ≠ 0) :
    efx_nic_init_interrupt cfg
      = ((if cfg.msix then [IrqEvent.allocRmap] else [])
          ++ (bindLoop cfg cfg.channels).1.map IrqEvent.bindIrq
          ++ (if cfg.msix then [IrqEvent.freeRmap] else [])
          ++ (bindLoop cfg cfg.channels).1.map IrqEvent.freeIrq,
        (bindLoop cfg cfg.channels).2) := by
  have hfree : (cfg.channels.take (bindLoop cfg cfg.channels).1.length).map
      (fun ch => IrqEvent.freeIrq ch.irq)
        = (bindLoop cfg cfg.channels).1.map IrqEvent.freeIrq := by
    conv_rhs => rw [bindLoop_bound_is_take cfg cfg.channels]
    rw [List.map_map]
    rfl
  unfold efx_nic_init_interrupt
  rw [hmsi]
  by_cases hx : cfg.msix
  · have := halloc hx
    simp [hx, this, hfail, hfree]
  · simp [hx, hfail, hfree]

/-- Witness for C5's amended theorem: MSI-X, two channels (irqs 20, 21),
hooking irq 21 fails; the trace is alloc, bind 20, free map, free 20. -/
theorem init_interrupt_unwind_spec_witness :
    (⟨true, true, 2, 0, [⟨0, 20⟩, ⟨1, 21⟩],
        fun irq => if irq = 21 then -1 else 0, fun _ => 0, true⟩ :
          IrqConfig).use_msi = true ∧
      (bindLoop ⟨true, true, 2, 0, [⟨0, 20⟩, ⟨1, 21⟩],
          fun irq => if irq = 21 then -1 else 0, fun _ => 0, true⟩
        [⟨0, 20⟩, ⟨1, 21⟩]).2 ≠ 0 ∧
      efx_nic_init_interrupt ⟨true, true, 2, 0, [⟨0, 20⟩, ⟨1, 21⟩],
          fun irq => if irq = 21 then -1 else 0, fun _ => 0, true⟩
        = ([IrqEvent.allocRmap, IrqEvent.bindIrq 20, IrqEvent.freeRmap,
            IrqEvent.freeIrq 20], -1) :=
  ⟨rfl, by decide,
    (init_interrupt_unwind_spec _ rfl (fun _ => rfl) (by decide)).trans
      (by decide)⟩

/-- C9: `efx_nic_check_pcie_link` returns 0 with no warning when the PCIe
capability is absent or the link-status word unreadable; otherwise it
returns the negotiated width, and the hard-shortfall warning fires exactly
when `width << (speed - 1) < min_bandwidth`.  With `full_width = 8`,
`full_speed = 3`, `min_bandwidth = 32`: width 8 at speed 3 (status 0x83)
gives bandwidth 32 and no warning; width 4 (status 0x43) gives bandwidth
16 and fires the hard-shortfall warning. -/
theorem check_pcie_link_spec :
    (∀ fw fs mb, efx_nic_check_pcie_link none fw fs mb = ⟨0, false, false⟩) ∧
      (∀ s fw fs mb,
        (efx_nic_check_pcie_link (some s) fw fs mb).hard_shortfall
          = decide (((s &&& PCI_EXP_LNKSTA_NLW) >>> 4)
              <<< ((s &&& PCI_EXP_LNKSTA_CLS) - 1) < mb)) ∧
      (∀ s fw fs mb,
        (efx_nic_check_pcie_link (some s) fw fs mb).returned
          = (s &&& PCI_EXP_LNKSTA_NLW) >>> 4) ∧
      efx_nic_check_pcie_link (some 0x83) 8 3 32 = ⟨8, false, false⟩ ∧
      efx_nic_check_pcie_link (some 0x43) 8 3 32 = ⟨4, true, true⟩ :=
  ⟨fun _ _ _ => rfl, fun _ _ _ _ => rfl, fun _ _ _ _ => rfl,
    by decide, by decide⟩

/-- Closed revision intervals with `max₁ < min₂` are never both satisfied. -/
lemma disjoint_apply (t1 t2 : efx_nic_reg_table)
    (h : t1.max_revision < t2.min_revision) (rev : Nat) :
    (tableApplicable rev t1 && tableApplicable rev t2) = false := by
  simp only [tableApplicable]
  by_cases h1 : rev ≤ t1.max_revision
  · by_cases h2 : t2.min_revision ≤ rev
    · exfalso
      omega
    · simp [h2]
  · simp [h1]

/-- C8: in the static catalogues, each of the five dual-shape table pairs
(RX_DESC_PTR_TBL, TX_DESC_PTR_TBL, EVQ_PTR_TBL, TIMER_TBL, TX_PACE_TBL)
shares its base offset while having disjoint closed revision ranges
(B..B = [2,2] versus C..Z = [3,3]); every flat-register and every
table descriptor satisfies `min_revision ≤ max_revision`; and hence for
every device revision at most one entry of each pair is applicable — for
any values of the header-supplied offsets, steps and row counts. -/
theorem catalogue_revision_invariants (c : TableConsts) (off : Nat → Nat) :
    ((efx_nic_regs off).all
        (fun r => decide (r.min_revision ≤ r.max_revision)) = true) ∧
      ((efx_nic_reg_tables c).all
        (fun t => decide (t.min_revision ≤ t.max_revision)) = true) ∧
      (dualPairIdx.all (fun p =>
        decide ((tblAt c p.1).offset = (tblAt c p.2).offset)
          && decide ((tblAt c p.1).max_revision
              < (tblAt c p.2).min_revision)) = true) ∧
      (∀ rev, dualPairIdx.all (fun p =>
        !(tableApplicable rev (tblAt c p.1)
          && tableApplicable rev (tblAt c p.2))) = true) := by
  refine ⟨?_, ?_, ?_, ?_⟩
  · simp [efx_nic_regs, REGISTER_AA, REGISTER_AB, REGISTER_AZ, REGISTER_BB,
      REGISTER_BZ, REGISTER_CZ, REGISTER_DZ]
  · simp [efx_nic_reg_tables, REGISTER_TABLE_DIMENSIONS, REGISTER_TABLE_BB_CZ]
  · simp [dualPairIdx, tblAt, efx_nic_reg_tables, REGISTER_TABLE_DIMENSIONS,
      REGISTER_TABLE_BB_CZ]
  · intro rev
    have hpair : ∀ i : Nat, (tblAt c i).max_revision = 2 →
        (tblAt c (i + 1)).min_revision = 3 →
        (tableApplicable rev (tblAt c i)
          && tableApplicable rev (tblAt c (i + 1))) = false := by
      intro i hmax hmin
      exact disjoint_apply _ _ (by omega) rev
    simp only [dualPairIdx, List.all_cons, List.all_nil, Bool.and_eq_true,
      Bool.not_eq_true']
    exact ⟨hpair 3 rfl rfl, hpair 6 rfl rfl, hpair 9 rfl rfl,
      hpair 14 rfl rfl, hpair 16 rfl rfl, trivial⟩

end Sfc
